import Mathlib

/-!
Verification of `backend/flaskr/utils.py` of the stocking repository.

The file shallowly embeds the ingestion-normalization-upsert pipeline and
the company-query builder. Pure data flow is translated function by
function from the Python source; the relational store is modelled as an
in-memory list of rows, with the `INSERT ... ON CONFLICT` statements
translated to explicit insert-or-update operations on that list
(PostgreSQL guarantees at most one conflicting row under the unique key,
which the update branch reflects by rewriting exactly the key-matching
rows). Provider rates are modelled as exact rationals; Python's
`ZeroDivisionError` on `1 / 0` is modelled with `Except`.
-/

/-! ## Market Data Normalizer (`process_stock_data`, utils.py lines 49-73) -/

/-- A provider ticker handle as consumed by `process_stock_data`:
`symbol` models the handle's `ticker` attribute — in the provider
client this attribute is the plain ticker symbol string — and `info`
models the provider info mapping, a finite partial map from field name
to field value (values carried textually). -/
structure TickerHandle where
  symbol : String
  info : List (String × String)
deriving DecidableEq, Repr

/-- Lookup of a field in a provider info mapping; `none` models the
`KeyError` raised by a missing field. -/
def lookupInfo (t : TickerHandle) (k : String) : Option String :=
  (t.info.find? (fun p => p.1 == k)).map Prod.snd

/-- One normalized company record, the dict built on utils.py lines 58-68
(keys ticker, name, market_cap, currency, date, sector, website). The
same shape serves as a stored row of the `Company` table's seven inserted
columns. -/
structure CompanyData where
  ticker : String
  name : String
  market_cap : String
  currency : String
  date : String
  sector : String
  website : String
deriving DecidableEq, Repr

/-- One iteration of the `process_stock_data` loop (utils.py lines
56-71): the `try` body reads the six provider fields in the order the
dict literal reads them, and the first missing field raises `KeyError`,
caught by the handler on line 69. The handler's log call then evaluates
`ticker.ticker["symbol"]` (line 70): the handle's `ticker` attribute is
the plain symbol string, and subscripting a string with a string key
raises `TypeError`, which the `except KeyError` clause does not catch —
so an incomplete record aborts the whole call instead of being
skipped. -/
def readCompanyFields (current_date : String) (t : TickerHandle) : Except String CompanyData :=
  match lookupInfo t "symbol", lookupInfo t "shortName", lookupInfo t "marketCap",
      lookupInfo t "financialCurrency", lookupInfo t "sector", lookupInfo t "website" with
  | some s, some n, some mc, some fc, some sec, some w =>
      Except.ok ⟨s, n, mc, fc, current_date, sec, w⟩
  | _, _, _, _, _, _ => Except.error "TypeError: string indices must be integers"

/-- `process_stock_data` (utils.py lines 49-73): iterate the ticker
handles in order, appending each successfully normalized record; a
handle whose info lacks a required field makes the handler itself raise
an uncaught `TypeError` (see `readCompanyFields`), which aborts the
call and discards the records accumulated so far. -/
def process_stock_data (current_date : String) (tickers : List TickerHandle) :
    Except String (List CompanyData) :=
  tickers.mapM (readCompanyFields current_date)

/-! ## Currency Rate Normalizer (`process_currency_data`, utils.py lines 136-142) -/

/-- Lookup of a currency in the provider's rate mapping. -/
def lookupProviderRate (rates : List (String × ℚ)) (c : String) : Option ℚ :=
  (rates.find? (fun p => p.1 == c)).map Prod.snd

/-- `process_currency_data` (utils.py lines 136-142): the list
comprehension filters out the reference code "USD" and looks each
remaining stored currency up in the provider mapping `rates`; a currency
absent from the mapping raises `KeyError`, modelled as `Except.error`,
aborting the whole call. Each element of the result models the
single-entry dict `{currency: rates[currency]}`. -/
def process_currency_data (existing_currencies : List String) (rates : List (String × ℚ)) :
    Except String (List (String × ℚ)) :=
  (existing_currencies.filter (fun c => c != "USD")).mapM (fun c =>
    match lookupProviderRate rates c with
    | some r => Except.ok (c, r)
    | none => Except.error ("KeyError: " ++ c))

/-! ## Exchange-rate upsert (`upsert_exchange_rates`, utils.py lines 157-179) -/

/-- A stored row of the `ExchangeRates` table, keyed by
(from_currency, to_currency). -/
structure ExchangeRateRow where
  from_currency : String
  to_currency : String
  ratio : ℚ
  date : String
deriving DecidableEq, Repr

/-- The inversion on utils.py line 167, `rate = 1 / row[currency]`:
Python raises `ZeroDivisionError` when the provider rate is zero. -/
def invertRate (x : ℚ) : Except String ℚ :=
  if x = 0 then Except.error "ZeroDivisionError: division by zero"
  else Except.ok (1 / x)

/-- Key match for the `ON CONFLICT (from_currency, to_currency)` clause. -/
def rateKeyMatch (c tgt : String) (q : ExchangeRateRow) : Bool :=
  q.from_currency == c && q.to_currency == tgt

/-- Loop body of `upsert_exchange_rates` (utils.py lines 164-178): take
the row's single currency key, invert its rate, and execute
`INSERT INTO ExchangeRates ... ON CONFLICT (from_currency, to_currency)
DO UPDATE SET ratio = EXCLUDED.ratio` — on conflict only `ratio` is
rewritten; otherwise the full row, `current_date` included, is inserted. -/
def upsert_exchange_rate_row (current_date : String) (db : List ExchangeRateRow)
    (row : String × ℚ) : Except String (List ExchangeRateRow) :=
  let currency := row.1
  match invertRate row.2 with
  | Except.error e => Except.error e
  | Except.ok rate =>
      Except.ok (if db.any (rateKeyMatch currency "USD") then
        db.map (fun q => if rateKeyMatch currency "USD" q then { q with ratio := rate } else q)
      else db ++ [⟨currency, "USD", rate, current_date⟩])

/-- `upsert_exchange_rates` (utils.py lines 157-179): process the batch
sequentially; an uncaught error aborts the batch (the transaction is
rolled back, nothing of the batch is committed). -/
def upsert_exchange_rates (current_date : String) (db : List ExchangeRateRow)
    (data : List (String × ℚ)) : Except String (List ExchangeRateRow) :=
  data.foldlM (fun acc row => upsert_exchange_rate_row current_date acc row) db

/-- Lookup of the stored row for a currency pair. -/
def lookup_rate_row (db : List ExchangeRateRow) (c tgt : String) : Option ExchangeRateRow :=
  db.find? (rateKeyMatch c tgt)

/-! ## Company upsert (`upsert_stock_data`, utils.py lines 88-121) -/

/-- The `DO UPDATE SET` clause of the Company upsert (utils.py lines
100-104): overwrite `market_cap`, `date`, `currency`, `website` with the
excluded (incoming) record's values; `ticker`, `name`, `sector` are not
in the update set. -/
def overwriteCompany (q : CompanyData) (rec : CompanyData) : CompanyData :=
  { q with market_cap := rec.market_cap, date := rec.date,
           currency := rec.currency, website := rec.website }

/-- The effect of the per-row statement on a row already in the table:
rows conflicting on `ticker` are rewritten by the update set, others are
untouched. -/
def applyCompanyUpdate (rec : CompanyData) (x : CompanyData) : CompanyData :=
  if x.ticker == rec.ticker then overwriteCompany x rec else x

/-- Loop body of `upsert_stock_data` (utils.py lines 94-119):
`INSERT INTO Company ... ON CONFLICT (ticker) DO UPDATE SET market_cap =
EXCLUDED.market_cap, date = EXCLUDED.date, currency = EXCLUDED.currency,
website = EXCLUDED.website`. Under the unique key on `ticker` the
conflict branch rewrites the one conflicting row; otherwise the record
is inserted as a new row. -/
def upsert_company_row (db : List CompanyData) (rec : CompanyData) : List CompanyData :=
  if db.any (fun x => x.ticker == rec.ticker) then db.map (applyCompanyUpdate rec)
  else db ++ [rec]

/-- `upsert_stock_data` (utils.py lines 88-121): execute the per-row
statement for each record of the batch in order. -/
def upsert_stock_data (db : List CompanyData) (data : List CompanyData) : List CompanyData :=
  data.foldl upsert_company_row db

/-! ## Company Query Builder (`get_companies_from_database`, utils.py lines 182-251) -/

/-- The query text built by `get_companies_from_database` (utils.py lines
205-225): the base SELECT, then the three conditional filter fragments,
each splicing the caller-supplied tickers or sectors into the text by
plain concatenation (the `for` loops on lines 209-210, 215-216 and
221-222 append the raw strings with no separator, quoting or binding),
then the ORDER BY / LIMIT tail with `count` interpolated. -/
def build_query_string (count : Nat) (exclude_companies wanted_categories : List String) :
    String :=
  let query_string := "SELECT * FROM Company"
  let query_string := if exclude_companies.length ≠ 0 then
      query_string ++ " WHERE ticker NOT IN (" ++ String.join exclude_companies ++ ")"
    else query_string
  let query_string := if exclude_companies.length ≠ 0 ∧ wanted_categories.length ≠ 0 then
      query_string ++ " AND sector IN (" ++ String.join wanted_categories ++ ")"
    else query_string
  let query_string := if exclude_companies.length = 0 ∧ wanted_categories.length ≠ 0 then
      query_string ++ " WHERE sector IN (" ++ String.join wanted_categories ++ ")"
    else query_string
  query_string ++ " ORDER BY RANDOM() LIMIT " ++ toString count ++ ";"

/-- A row of the `Company` table as fetched by `cursor.fetchall()`: the
projection on utils.py lines 237-248 reads positions 1..7, so the table
carries a leading `id` column at position 0. Values are carried
textually. -/
structure CompanyRow where
  id : String
  ticker : String
  name : String
  market_cap : String
  currency : String
  date : String
  sector : String
  website : String
deriving DecidableEq, Repr

/-- The dict built from a fetched row on utils.py lines 238-246
(positions 1..7: ticker, name, market_cap, currency, date, sector,
website; the leading id column is dropped). -/
def projectCompany (r : CompanyRow) : CompanyData :=
  ⟨r.ticker, r.name, r.market_cap, r.currency, r.date, r.sector, r.website⟩

/-- The single-quote character, written by code point to keep the
source free of quote-literal noise. -/
def squote : Char := Char.ofNat 39

/-- Start character of an unquoted store identifier. -/
def isIdentStart (c : Char) : Bool := c.isAlpha || c == '_'

/-- Continuation character of an unquoted store identifier. -/
def isIdentChar (c : Char) : Bool := c.isAlphanum || c == '_' || c == '$'

/-- Lexical shape of the text spliced between the parentheses of an
`IN (...)` clause, under the store's lexing rules: a single-quoted
run with no interior quote is a string literal; a bare word of
identifier characters is an identifier, case-folded to lower case
(PostgreSQL folds unquoted identifiers); anything else (empty text,
metacharacters, adjacent tokens) is not a single plain token and is
modelled as malformed, rejected by the store's parser. -/
inductive SqlAtom where
  | strLit (s : String)
  | ident (n : String)
  | malformed
deriving DecidableEq, Repr

/-- Lex the in-list body according to the store's rules, working on the
body's character list: a first and last quote with no interior quote is
a string literal; otherwise a non-empty identifier-shaped word is an
identifier, ASCII-folded to lower case; anything else is malformed. -/
def parseAtom (body : String) : SqlAtom :=
  let cs := body.data
  if 2 ≤ cs.length ∧ cs.head? = some squote ∧ cs.getLast? = some squote ∧
      ((cs.drop 1).dropLast.contains squote) = false then
    SqlAtom.strLit { data := (cs.drop 1).dropLast }
  else if (cs.head?.map isIdentStart) = some true ∧ cs.all isIdentChar then
    SqlAtom.ident { data := cs.map Char.toLower }
  else SqlAtom.malformed

/-- Columns of the `Company` table, in stored order. -/
inductive ColRef where
  | cid | ticker | name | market_cap | currency | date | sector | website
deriving DecidableEq, Repr

/-- Resolution of an identifier against the `Company` schema. -/
def colRefOfName (n : String) : Option ColRef :=
  if n = "id" then some ColRef.cid
  else if n = "ticker" then some ColRef.ticker
  else if n = "name" then some ColRef.name
  else if n = "market_cap" then some ColRef.market_cap
  else if n = "currency" then some ColRef.currency
  else if n = "date" then some ColRef.date
  else if n = "sector" then some ColRef.sector
  else if n = "website" then some ColRef.website
  else none

/-- Value of a column in a row. -/
def getCol (r : CompanyRow) : ColRef → String
  | ColRef.cid => r.id
  | ColRef.ticker => r.ticker
  | ColRef.name => r.name
  | ColRef.market_cap => r.market_cap
  | ColRef.currency => r.currency
  | ColRef.date => r.date
  | ColRef.sector => r.sector
  | ColRef.website => r.website

/-- In-list operand after the store has planned the query: a constant
from a string literal, or a resolved column reference. -/
inductive PlannedAtom where
  | const (s : String)
  | col (c : ColRef)
deriving DecidableEq, Repr

/-- Planning an in-list operand: a string literal is a constant; an
identifier must resolve against the schema, otherwise the store raises
an undefined-column error; malformed text is a syntax error. Planning
happens before any row is read, so these errors occur even on an empty
table. -/
def planAtom : SqlAtom → Except String PlannedAtom
  | SqlAtom.strLit s => Except.ok (PlannedAtom.const s)
  | SqlAtom.ident n =>
      match colRefOfName n with
      | some c => Except.ok (PlannedAtom.col c)
      | none => Except.error ("UndefinedColumn: " ++ n)
  | SqlAtom.malformed => Except.error "SyntaxError"

/-- Evaluate a planned operand on a row. -/
def evalPlanned (a : PlannedAtom) (r : CompanyRow) : String :=
  match a with
  | PlannedAtom.const s => s
  | PlannedAtom.col c => getCol r c

/-- The WHERE clause shapes produced by the builder's three conditional
branches (utils.py lines 207-223), carrying the raw spliced in-list
bodies. -/
inductive WhereCond where
  | noFilter
  | excludeOnly (exBody : String)
  | excludeAndSector (exBody secBody : String)
  | sectorOnly (secBody : String)
deriving DecidableEq, Repr

/-- The WHERE clause built from the two filter lists, mirroring the
branch conditions of utils.py lines 207-223: a non-empty exclusion list
adds `ticker NOT IN (<joined tickers>)`, a non-empty sector list adds
`sector IN (<joined sectors>)`, joined to the exclusion clause by AND
when both are present. -/
def whereCondOf (exclude_companies wanted_categories : List String) : WhereCond :=
  if exclude_companies.length ≠ 0 then
    if wanted_categories.length ≠ 0 then
      WhereCond.excludeAndSector (String.join exclude_companies) (String.join wanted_categories)
    else WhereCond.excludeOnly (String.join exclude_companies)
  else if wanted_categories.length ≠ 0 then
    WhereCond.sectorOnly (String.join wanted_categories)
  else WhereCond.noFilter

/-- A planned WHERE clause. -/
inductive PlannedCond where
  | all
  | notInTicker (a : PlannedAtom)
  | notInAndSector (a b : PlannedAtom)
  | sectorIn (b : PlannedAtom)
deriving DecidableEq, Repr

/-- Plan the WHERE clause: lex and plan each spliced in-list body. -/
def planCond : WhereCond → Except String PlannedCond
  | WhereCond.noFilter => Except.ok PlannedCond.all
  | WhereCond.excludeOnly ex =>
      match planAtom (parseAtom ex) with
      | Except.ok a => Except.ok (PlannedCond.notInTicker a)
      | Except.error e => Except.error e
  | WhereCond.excludeAndSector ex sec =>
      match planAtom (parseAtom ex), planAtom (parseAtom sec) with
      | Except.ok a, Except.ok b => Except.ok (PlannedCond.notInAndSector a b)
      | Except.error e, _ => Except.error e
      | _, Except.error e => Except.error e
  | WhereCond.sectorOnly sec =>
      match planAtom (parseAtom sec) with
      | Except.ok b => Except.ok (PlannedCond.sectorIn b)
      | Except.error e => Except.error e

/-- Evaluate a planned WHERE clause on a row: `x NOT IN (e)` holds when
`x` differs from the value of `e`, `x IN (e)` when it equals it. -/
def condEval (pc : PlannedCond) (r : CompanyRow) : Bool :=
  match pc with
  | PlannedCond.all => true
  | PlannedCond.notInTicker a => !(r.ticker == evalPlanned a r)
  | PlannedCond.notInAndSector a b =>
      !(r.ticker == evalPlanned a r) && (r.sector == evalPlanned b r)
  | PlannedCond.sectorIn b => r.sector == evalPlanned b r

/-- `get_companies_from_database` (utils.py lines 182-251): build and
run the query against the stored table and project the fetched rows.
`table` is the stored `Company` rows in the order `ORDER BY RANDOM()`
emits them (the random shuffle is an input of the model); `LIMIT count`
keeps the first `count` of the qualifying rows. The unused
`wanted_currency` parameter is kept from the source signature (currency
conversion is a TODO in the source). A planning error (undefined column
or syntax error in a spliced filter body) aborts the call with a store
error. -/
def get_companies_from_database (table : List CompanyRow) (count : Nat := 10)
    (exclude_companies : List String := []) (wanted_categories : List String := [])
    (wanted_currency : String := "USD") : Except String (List CompanyData) :=
  match planCond (whereCondOf exclude_companies wanted_categories) with
  | Except.error e => Except.error e
  | Except.ok pc => Except.ok (((table.filter (condEval pc)).take count).map projectCompany)

/-! ## Normalizer theorems -/

/-- C3 (code bug): market-data normalization does not tolerate
incomplete provider records. A batch of N = 2 handles of which M = 1
lacks `marketCap` does not return the N − M = 1 normalized records the
claim states: the `except KeyError` handler's own log argument
`ticker.ticker["symbol"]` raises an uncaught `TypeError` at the
incomplete record and the whole call fails; a batch whose handles are
all complete normalizes every record. -/
theorem process_stock_data_crashes_on_incomplete :
    process_stock_data "2024-06-01"
        [⟨"AAPL", [("symbol", "AAPL"), ("shortName", "Apple Inc"),
            ("marketCap", "3000000000000"), ("financialCurrency", "USD"),
            ("sector", "Technology"), ("website", "apple.example")]⟩,
         ⟨"AMD", [("symbol", "AMD"), ("shortName", "AMD Inc")]⟩] =
      Except.error "TypeError: string indices must be integers" ∧
    process_stock_data "2024-06-01"
        [⟨"AAPL", [("symbol", "AAPL"), ("shortName", "Apple Inc"),
            ("marketCap", "3000000000000"), ("financialCurrency", "USD"),
            ("sector", "Technology"), ("website", "apple.example")]⟩] =
      Except.ok [⟨"AAPL", "Apple Inc", "3000000000000", "USD", "2024-06-01",
          "Technology", "apple.example"⟩] :=
  ⟨rfl, rfl⟩

/-- Error propagation of `mapM` in the `Except` monad: one failing
element fails the whole traversal. -/
theorem mapM_error_of_mem {α β : Type} (f : α → Except String β) (l : List α) (x : α)
    (hx : x ∈ l) (hf : ∃ e, f x = Except.error e) :
    ∃ e, l.mapM f = Except.error e := by
  induction l with
  | nil => cases hx
  | cons a t ih =>
    rw [List.mapM_cons]
    cases ha : f a with
    | error e => exact ⟨e, rfl⟩
    | ok v =>
      rcases List.mem_cons.mp hx with rfl | hx
      · obtain ⟨e, he⟩ := hf
        rw [ha] at he
        cases he
      · obtain ⟨e, he⟩ := ih hx
        refine ⟨e, ?_⟩
        rw [he]
        rfl

/-- C7: a stored non-USD currency that is absent from the provider's
rate mapping makes `process_currency_data` fail with a key-lookup error
that aborts the whole call; the currency is not silently skipped. -/
theorem process_currency_data_missing_rate_aborts
    (existing_currencies : List String) (rates : List (String × ℚ)) (c : String)
    (hmem : c ∈ existing_currencies) (husd : c ≠ "USD")
    (hmiss : lookupProviderRate rates c = none) :
    ∃ e, process_currency_data existing_currencies rates = Except.error e := by
  unfold process_currency_data
  apply mapM_error_of_mem _ _ c
  · exact List.mem_filter.mpr ⟨hmem, by simpa using husd⟩
  · rw [hmiss]
    exact ⟨_, rfl⟩

/-- Witness for the C7 theorem at a concrete input: stored currencies
EUR and USD with an empty provider mapping. -/
theorem process_currency_data_missing_rate_aborts_witness :
    ∃ e, process_currency_data ["EUR", "USD"] [] = Except.error e :=
  process_currency_data_missing_rate_aborts ["EUR", "USD"] [] "EUR" (by decide) (by decide) rfl

/-- C10: a provider record carrying rate 0 makes the exchange-rate
upsert fail with a division-by-zero error instead of producing an
ExchangeRate record. -/
theorem upsert_exchange_rates_zero_rate_error (d : String) (db : List ExchangeRateRow)
    (c : String) :
    upsert_exchange_rates d db [(c, 0)] =
      Except.error "ZeroDivisionError: division by zero" := by
  rfl

/-! ## Query Builder theorems -/

/-- C2 (code bug): the builder interpolates the caller-supplied strings
raw into the query text instead of binding them as parameters — the
excluded ticker appears verbatim and unquoted inside the statement, and
a sector name containing store-query metacharacters rewrites the shape
of the statement itself. -/
theorem query_text_interpolates_raw_strings :
    build_query_string 10 ["AAPL"] [] =
      "SELECT * FROM Company WHERE ticker NOT IN (AAPL) ORDER BY RANDOM() LIMIT 10;" ∧
    build_query_string 5 [] ["Tech) OR (1=1"] =
      "SELECT * FROM Company WHERE sector IN (Tech) OR (1=1) ORDER BY RANDOM() LIMIT 5;" := by
  constructor <;> rfl

/-- C1 (code bug): because the exclusion list is spliced unquoted into
`ticker NOT IN (...)`, the spliced text is read as a column reference,
not as the excluded ticker string. With exclusion list ["name"] the
query compares `ticker` against the `name` column, and a stored row
whose ticker is "name" is returned even though its ticker is in the
exclusion list; with the ordinary exclusion list ["AAPL"] the query does
not run at all but fails with an undefined-column error. -/
theorem exclusion_filter_returns_excluded_ticker :
    get_companies_from_database
        [⟨"1", "name", "Foo Corp", "100", "USD", "2024-05-01", "Tech", "foo.example"⟩]
        10 ["name"] [] =
      Except.ok [⟨"name", "Foo Corp", "100", "USD", "2024-05-01", "Tech", "foo.example"⟩] ∧
    "name" ∈ ["name"] ∧
    get_companies_from_database [] 10 ["AAPL"] [] =
      Except.error "UndefinedColumn: aapl" := by
  refine ⟨rfl, by simp, rfl⟩

/-- C8: the query returns at most `count` rows, and `count` defaults to
10 when not supplied; when the WHERE clause plans successfully the call
returns exactly min(count, qualifying rows) rows, so fewer rows come
back when fewer rows qualify under the filters. -/
theorem query_count_bound :
    (∀ (table : List CompanyRow) (count : Nat) (ex cats : List String)
        (rows : List CompanyData),
        get_companies_from_database table count ex cats = Except.ok rows →
        rows.length ≤ count) ∧
    (∀ table : List CompanyRow,
        get_companies_from_database table = get_companies_from_database table 10) ∧
    (∀ (table : List CompanyRow) (count : Nat) (ex cats : List String) (pc : PlannedCond),
        planCond (whereCondOf ex cats) = Except.ok pc →
        ∃ rows, get_companies_from_database table count ex cats = Except.ok rows ∧
          rows.length = min count (table.filter (condEval pc)).length) := by
  refine ⟨?_, ?_, ?_⟩
  · intro table count ex cats rows h
    unfold get_companies_from_database at h
    cases hp : planCond (whereCondOf ex cats) with
    | error e => rw [hp] at h; cases h
    | ok pc =>
      rw [hp] at h
      cases h
      simp only [List.length_map, List.length_take]
      exact Nat.min_le_left _ _
  · intro table
    rfl
  · intro table count ex cats pc hp
    refine ⟨((table.filter (condEval pc)).take count).map projectCompany, ?_, ?_⟩
    · unfold get_companies_from_database
      rw [hp]
    · simp only [List.length_map, List.length_take]

/-- Witness for the C8 theorem at a concrete call: a one-row table
queried with count 2 and no filters returns its single row. -/
theorem query_count_bound_witness :
    ([⟨"T", "TCo", "1", "USD", "2024-01-01", "Tech", "t.example"⟩] :
        List CompanyData).length ≤ 2 ∧
    (∃ rows, get_companies_from_database
        [⟨"9", "T", "TCo", "1", "USD", "2024-01-01", "Tech", "t.example"⟩] 2 [] [] =
        Except.ok rows ∧
      rows.length = min 2
        (([⟨"9", "T", "TCo", "1", "USD", "2024-01-01", "Tech", "t.example"⟩] :
            List CompanyRow).filter (condEval PlannedCond.all)).length) :=
  ⟨query_count_bound.1 [⟨"9", "T", "TCo", "1", "USD", "2024-01-01", "Tech", "t.example"⟩]
      2 [] [] [⟨"T", "TCo", "1", "USD", "2024-01-01", "Tech", "t.example"⟩] rfl,
   query_count_bound.2.2 [⟨"9", "T", "TCo", "1", "USD", "2024-01-01", "Tech", "t.example"⟩]
      2 [] [] PlannedCond.all rfl⟩

/-! ## Exchange-rate upsert theorems -/

/-- The conflict update rewrites only `ratio`, so it preserves the key
columns of every row. -/
theorem rateKeyMatch_update (c tgt : String) (rate : ℚ) (q : ExchangeRateRow) :
    rateKeyMatch c tgt { q with ratio := rate } = rateKeyMatch c tgt q := rfl

/-- Looking the key up after the conflict update finds the previously
stored row with its ratio rewritten. -/
theorem lookup_rate_row_update (db : List ExchangeRateRow) (c : String) (rate : ℚ) :
    lookup_rate_row
        (db.map (fun q => if rateKeyMatch c "USD" q then { q with ratio := rate } else q))
        c "USD" =
      (lookup_rate_row db c "USD").map
        (fun q => if rateKeyMatch c "USD" q then { q with ratio := rate } else q) := by
  unfold lookup_rate_row
  rw [List.find?_map]
  have hfun : (rateKeyMatch c "USD" ∘ fun q =>
      if rateKeyMatch c "USD" q then { q with ratio := rate } else q) =
      rateKeyMatch c "USD" := by
    funext q
    show rateKeyMatch c "USD"
        (if rateKeyMatch c "USD" q then { q with ratio := rate } else q) =
      rateKeyMatch c "USD" q
    by_cases h : rateKeyMatch c "USD" q = true
    · rw [if_pos h, rateKeyMatch_update]
    · rw [if_neg h]
  rw [hfun]

/-- Inserting into a table with no key-matching row leaves the new row
as the unique key match. -/
theorem lookup_rate_row_append (db : List ExchangeRateRow) (c : String) (x : ExchangeRateRow)
    (hno : db.any (rateKeyMatch c "USD") = false) (hx : rateKeyMatch c "USD" x = true) :
    lookup_rate_row (db ++ [x]) c "USD" = some x := by
  unfold lookup_rate_row
  induction db with
  | nil => rw [List.nil_append, List.find?_cons_of_pos _ hx]
  | cons a t ih =>
    rw [List.any_cons, Bool.or_eq_false_iff] at hno
    rw [List.cons_append, List.find?_cons_of_neg _ (by rw [hno.1]; exact Bool.false_ne_true)]
    exact ih hno.2

/-- A non-zero rate makes the per-row exchange-rate upsert succeed,
updating on conflict and appending otherwise. -/
theorem upsert_exchange_rate_row_ok (d : String) (db : List ExchangeRateRow) (c : String)
    (r : ℚ) (hr : r ≠ 0) :
    upsert_exchange_rate_row d db (c, r) =
      Except.ok (if db.any (rateKeyMatch c "USD") then
        db.map (fun q => if rateKeyMatch c "USD" q then { q with ratio := 1 / r } else q)
      else db ++ [⟨c, "USD", 1 / r, d⟩]) := by
  simp only [upsert_exchange_rate_row, invertRate]
  rw [if_neg hr]

/-- A singleton batch reduces to the one per-row statement. -/
theorem upsert_exchange_rates_singleton (d : String) (db : List ExchangeRateRow)
    (p : String × ℚ) :
    upsert_exchange_rates d db [p] = upsert_exchange_rate_row d db p := by
  unfold upsert_exchange_rates
  cases hs : upsert_exchange_rate_row d db p with
  | error e => simp only [List.foldlM, hs]; rfl
  | ok v => simp only [List.foldlM, hs]; rfl

/-- C4: for every currency C with provider USD-quoted rate r, the sync
persists ratio = 1/r for the stored pair (C, "USD"), and 1/ratio
recovers r exactly (rates are modelled as exact rationals, so recovery
is within any floating-point tolerance). -/
theorem exchange_rate_inversion_round_trip (db : List ExchangeRateRow) (d C : String)
    (r : ℚ) (hr : r ≠ 0) :
    ∃ db', upsert_exchange_rates d db [(C, r)] = Except.ok db' ∧
      ∃ q, lookup_rate_row db' C "USD" = some q ∧ q.ratio = 1 / r ∧ 1 / q.ratio = r := by
  rw [upsert_exchange_rates_singleton, upsert_exchange_rate_row_ok d db C r hr]
  by_cases hc : db.any (rateKeyMatch C "USD") = true
  · rw [if_pos hc]
    refine ⟨_, rfl, ?_⟩
    rw [lookup_rate_row_update]
    obtain ⟨q0, hq0⟩ : ∃ q0, lookup_rate_row db C "USD" = some q0 := by
      obtain ⟨x, hx, hpx⟩ := List.any_eq_true.mp hc
      exact Option.isSome_iff_exists.mp
        (by unfold lookup_rate_row; exact List.find?_isSome.mpr ⟨x, hx, hpx⟩)
    have hp : rateKeyMatch C "USD" q0 = true := List.find?_some hq0
    rw [hq0]
    refine ⟨_, rfl, ?_, ?_⟩
    · show (if rateKeyMatch C "USD" q0 then { q0 with ratio := 1 / r } else q0).ratio = 1 / r
      rw [if_pos hp]
    · show 1 / (if rateKeyMatch C "USD" q0 then { q0 with ratio := 1 / r } else q0).ratio = r
      rw [if_pos hp]
      exact one_div_one_div r
  · rw [if_neg hc]
    refine ⟨_, rfl, ?_⟩
    rw [lookup_rate_row_append db C _ (by simpa using hc) (by simp [rateKeyMatch])]
    exact ⟨_, rfl, rfl, one_div_one_div r⟩

/-- Witness for the C4 theorem at a concrete input: syncing EUR with
provider rate 2 into an empty table. -/
theorem exchange_rate_inversion_round_trip_witness :
    ∃ db', upsert_exchange_rates "2024-01-01" [] [("EUR", 2)] = Except.ok db' ∧
      ∃ q, lookup_rate_row db' "EUR" "USD" = some q ∧ q.ratio = 1 / 2 ∧ 1 / q.ratio = 2 :=
  exchange_rate_inversion_round_trip [] "2024-01-01" "EUR" 2 (by norm_num)

/-- With unique (from_currency, to_currency) keys, `find?` on the key
returns exactly the member row carrying that key. -/
theorem find?_rate_of_nodup (db : List ExchangeRateRow) (q : ExchangeRateRow) (c : String)
    (hq : q ∈ db) (hpq : rateKeyMatch c "USD" q = true)
    (hnd : (db.map (fun x => (x.from_currency, x.to_currency))).Nodup) :
    db.find? (rateKeyMatch c "USD") = some q := by
  induction db with
  | nil => cases hq
  | cons a t ih =>
    rw [List.map_cons, List.nodup_cons] at hnd
    by_cases hpa : rateKeyMatch c "USD" a = true
    · rw [List.find?_cons_of_pos _ hpa]
      rcases List.mem_cons.mp hq with rfl | hqt
      · rfl
      · exfalso
        apply hnd.1
        have h1 : q.from_currency = c ∧ q.to_currency = "USD" := by
          simpa [rateKeyMatch] using hpq
        have h2 : a.from_currency = c ∧ a.to_currency = "USD" := by
          simpa [rateKeyMatch] using hpa
        have hkey : (a.from_currency, a.to_currency) = (q.from_currency, q.to_currency) := by
          rw [h1.1, h1.2, h2.1, h2.2]
        rw [hkey]
        exact List.mem_map_of_mem _ hqt
    · rw [List.find?_cons_of_neg _ hpa]
      rcases List.mem_cons.mp hq with rfl | hqt
      · exact absurd hpq hpa
      · exact ih hqt hnd.2

/-- C9: an ExchangeRate upsert hitting a key conflict on
(from_currency, to_currency) updates only the `ratio` column: the
stored row keeps its `date` (and key columns) unchanged even though a
fresh current date is supplied with the insert values. -/
theorem exchange_rate_conflict_updates_ratio_only (db : List ExchangeRateRow)
    (d c : String) (r : ℚ) (q : ExchangeRateRow)
    (hq : q ∈ db) (hc : q.from_currency = c) (hu : q.to_currency = "USD")
    (hnd : (db.map (fun x => (x.from_currency, x.to_currency))).Nodup) (hr : r ≠ 0) :
    ∃ db', upsert_exchange_rate_row d db (c, r) = Except.ok db' ∧
      lookup_rate_row db' c "USD" = some { q with ratio := 1 / r } := by
  have hpq : rateKeyMatch c "USD" q = true := by simp [rateKeyMatch, hc, hu]
  have hany : db.any (rateKeyMatch c "USD") = true := List.any_eq_true.mpr ⟨q, hq, hpq⟩
  rw [upsert_exchange_rate_row_ok d db c r hr, if_pos hany]
  refine ⟨_, rfl, ?_⟩
  rw [lookup_rate_row_update]
  unfold lookup_rate_row
  rw [find?_rate_of_nodup db q c hq hpq hnd]
  show some (if rateKeyMatch c "USD" q then { q with ratio := 1 / r } else q) = _
  rw [if_pos hpq]

/-- Witness for the C9 theorem at a concrete input: re-syncing EUR at
rate 2 over a stored row dated "2023-12-31" keeps that date. -/
theorem exchange_rate_conflict_updates_ratio_only_witness :
    ∃ db', upsert_exchange_rate_row "2024-01-02"
        [⟨"EUR", "USD", 3, "2023-12-31"⟩] ("EUR", 2) = Except.ok db' ∧
      lookup_rate_row db' "EUR" "USD" = some ⟨"EUR", "USD", 1 / 2, "2023-12-31"⟩ :=
  exchange_rate_conflict_updates_ratio_only [⟨"EUR", "USD", 3, "2023-12-31"⟩]
    "2024-01-02" "EUR" 2 ⟨"EUR", "USD", 3, "2023-12-31"⟩
    (by simp) rfl rfl (by simp) (by norm_num)

/-! ## Company upsert theorems -/

/-- The conflict update keeps the `ticker` column. -/
theorem applyCompanyUpdate_ticker (rec x : CompanyData) :
    (applyCompanyUpdate rec x).ticker = x.ticker := by
  unfold applyCompanyUpdate overwriteCompany
  by_cases h : x.ticker == rec.ticker
  · rw [if_pos h]
  · rw [if_neg h]

/-- The conflict update keeps the `name` column. -/
theorem applyCompanyUpdate_name (rec x : CompanyData) :
    (applyCompanyUpdate rec x).name = x.name := by
  unfold applyCompanyUpdate overwriteCompany
  by_cases h : x.ticker == rec.ticker
  · rw [if_pos h]
  · rw [if_neg h]

/-- The conflict update keeps the `sector` column. -/
theorem applyCompanyUpdate_sector (rec x : CompanyData) :
    (applyCompanyUpdate rec x).sector = x.sector := by
  unfold applyCompanyUpdate overwriteCompany
  by_cases h : x.ticker == rec.ticker
  · rw [if_pos h]
  · rw [if_neg h]

/-- With unique tickers, `find?` on a ticker returns exactly the member
row carrying that ticker. -/
theorem find?_company_of_nodup (db : List CompanyData) (q : CompanyData) (tk : String)
    (hq : q ∈ db) (hpq : q.ticker = tk) (hnd : (db.map CompanyData.ticker).Nodup) :
    db.find? (fun x => x.ticker == tk) = some q := by
  induction db with
  | nil => cases hq
  | cons a t ih =>
    rw [List.map_cons, List.nodup_cons] at hnd
    by_cases hpa : (a.ticker == tk) = true
    · rw [List.find?_cons_of_pos (p := fun x : CompanyData => x.ticker == tk) t hpa]
      rcases List.mem_cons.mp hq with rfl | hqt
      · rfl
      · exfalso
        apply hnd.1
        have : a.ticker = q.ticker := by rw [hpq, ← beq_iff_eq.mp hpa]
        rw [this]
        exact List.mem_map_of_mem _ hqt
    · rw [List.find?_cons_of_neg (p := fun x : CompanyData => x.ticker == tk) t hpa]
      rcases List.mem_cons.mp hq with rfl | hqt
      · exact absurd (by rw [hpq]; exact beq_self_eq_true tk) hpa
      · exact ih hqt hnd.2

/-- C5: a Company upsert hitting a key conflict on `ticker` overwrites
exactly `market_cap`, `date`, `currency` and `website` of the stored
row, leaving its `name` and `sector` (and ticker) unchanged; rows with
other tickers are carried over untouched. -/
theorem company_conflict_update_frame (db : List CompanyData) (rec q : CompanyData)
    (hq : q ∈ db) (ht : q.ticker = rec.ticker)
    (hnd : (db.map CompanyData.ticker).Nodup) :
    (upsert_company_row db rec).find? (fun x => x.ticker == rec.ticker) =
      some { q with market_cap := rec.market_cap, date := rec.date,
                    currency := rec.currency, website := rec.website } ∧
    ∀ p ∈ db, p.ticker ≠ rec.ticker → p ∈ upsert_company_row db rec := by
  have hany : db.any (fun x => x.ticker == rec.ticker) = true :=
    List.any_eq_true.mpr ⟨q, hq, by rw [ht]; exact beq_self_eq_true rec.ticker⟩
  unfold upsert_company_row
  rw [if_pos hany]
  constructor
  · rw [List.find?_map]
    have hfun : ((fun x => x.ticker == rec.ticker) ∘ applyCompanyUpdate rec) =
        (fun x => x.ticker == rec.ticker) := by
      funext x
      show ((applyCompanyUpdate rec x).ticker == rec.ticker) = (x.ticker == rec.ticker)
      rw [applyCompanyUpdate_ticker]
    rw [hfun, find?_company_of_nodup db q rec.ticker hq ht hnd]
    show some (applyCompanyUpdate rec q) = _
    unfold applyCompanyUpdate overwriteCompany
    rw [if_pos (by rw [ht]; exact beq_self_eq_true rec.ticker)]
  · intro p hp hne
    have : applyCompanyUpdate rec p = p := by
      unfold applyCompanyUpdate
      rw [if_neg (by simpa using hne)]
    rw [← this]
    exact List.mem_map_of_mem _ hp

/-- Witness for the C5 theorem at a concrete input: re-ingesting AAPL
with new market data keeps the stored name and sector. -/
theorem company_conflict_update_frame_witness :
    ((upsert_company_row
        [⟨"AAPL", "Apple Inc", "100", "USD", "2023-01-01", "Tech", "apple.example"⟩,
         ⟨"AMD", "AMD Inc", "50", "USD", "2023-01-01", "Tech", "amd.example"⟩]
        ⟨"AAPL", "Apple Computer", "120", "EUR", "2024-01-01", "Hardware", "apple.new"⟩).find?
      (fun x => x.ticker == "AAPL") =
      some ⟨"AAPL", "Apple Inc", "120", "EUR", "2024-01-01", "Tech", "apple.new"⟩) ∧
    ∀ p ∈ [⟨"AAPL", "Apple Inc", "100", "USD", "2023-01-01", "Tech", "apple.example"⟩,
           ⟨"AMD", "AMD Inc", "50", "USD", "2023-01-01", "Tech", "amd.example"⟩],
      p.ticker ≠ "AAPL" →
      p ∈ upsert_company_row
        [⟨"AAPL", "Apple Inc", "100", "USD", "2023-01-01", "Tech", "apple.example"⟩,
         ⟨"AMD", "AMD Inc", "50", "USD", "2023-01-01", "Tech", "amd.example"⟩]
        ⟨"AAPL", "Apple Computer", "120", "EUR", "2024-01-01", "Hardware", "apple.new"⟩ :=
  company_conflict_update_frame
    [⟨"AAPL", "Apple Inc", "100", "USD", "2023-01-01", "Tech", "apple.example"⟩,
     ⟨"AMD", "AMD Inc", "50", "USD", "2023-01-01", "Tech", "amd.example"⟩]
    ⟨"AAPL", "Apple Computer", "120", "EUR", "2024-01-01", "Hardware", "apple.new"⟩
    ⟨"AAPL", "Apple Inc", "100", "USD", "2023-01-01", "Tech", "apple.example"⟩
    (by simp) rfl (by simp)

/-! ## Company upsert idempotence -/

/-- The tickers stored in the table. -/
def tickersOf (db : List CompanyData) : List String := db.map CompanyData.ticker

/-- Pointwise composition of the conflict updates of a whole batch, in
batch order. -/
def companyFold (data : List CompanyData) (x : CompanyData) : CompanyData :=
  data.foldl (fun y rec => applyCompanyUpdate rec y) x

/-- Unfolding `companyFold` over a batch head. -/
theorem companyFold_cons (r : CompanyData) (data : List CompanyData) (x : CompanyData) :
    companyFold (r :: data) x = companyFold data (applyCompanyUpdate r x) := rfl

/-- Unfolding `companyFold` over a batch tail. -/
theorem companyFold_append_one (data : List CompanyData) (r x : CompanyData) :
    companyFold (data ++ [r]) x = applyCompanyUpdate r (companyFold data x) := by
  unfold companyFold
  rw [List.foldl_append]
  rfl

/-- The batch of conflict updates keeps the `ticker` column. -/
theorem companyFold_ticker (data : List CompanyData) (x : CompanyData) :
    (companyFold data x).ticker = x.ticker := by
  induction data generalizing x with
  | nil => rfl
  | cons r l ih => rw [companyFold_cons, ih, applyCompanyUpdate_ticker]

/-- The batch of conflict updates keeps the `name` column. -/
theorem companyFold_name (data : List CompanyData) (x : CompanyData) :
    (companyFold data x).name = x.name := by
  induction data generalizing x with
  | nil => rfl
  | cons r l ih => rw [companyFold_cons, ih, applyCompanyUpdate_name]

/-- The batch of conflict updates keeps the `sector` column. -/
theorem companyFold_sector (data : List CompanyData) (x : CompanyData) :
    (companyFold data x).sector = x.sector := by
  induction data generalizing x with
  | nil => rfl
  | cons r l ih => rw [companyFold_cons, ih, applyCompanyUpdate_sector]

/-- The conflict update leaves the table's ticker column unchanged. -/
theorem tickersOf_map_update (rec : CompanyData) (db : List CompanyData) :
    tickersOf (db.map (applyCompanyUpdate rec)) = tickersOf db := by
  unfold tickersOf
  rw [List.map_map]
  exact List.map_congr_left (fun a _ => applyCompanyUpdate_ticker rec a)

/-- One upsert statement never removes a stored ticker. -/
theorem mem_tickersOf_upsert_row (db : List CompanyData) (rec : CompanyData) (t : String)
    (h : t ∈ tickersOf db) : t ∈ tickersOf (upsert_company_row db rec) := by
  unfold upsert_company_row
  by_cases hc : db.any (fun x => x.ticker == rec.ticker) = true
  · rw [if_pos hc, tickersOf_map_update]
    exact h
  · rw [if_neg hc]
    unfold tickersOf at h ⊢
    rw [List.map_append]
    exact List.mem_append_left _ h

/-- After one upsert statement the record's ticker is stored. -/
theorem rec_ticker_mem_upsert_row (db : List CompanyData) (rec : CompanyData) :
    rec.ticker ∈ tickersOf (upsert_company_row db rec) := by
  unfold upsert_company_row
  by_cases hc : db.any (fun x => x.ticker == rec.ticker) = true
  · rw [if_pos hc, tickersOf_map_update]
    obtain ⟨x, hx, hpx⟩ := List.any_eq_true.mp hc
    rw [← beq_iff_eq.mp hpx]
    exact List.mem_map_of_mem _ hx
  · rw [if_neg hc]
    unfold tickersOf
    rw [List.map_append]
    exact List.mem_append_right _ (by simp)

/-- A whole batch never removes a stored ticker. -/
theorem mem_tickersOf_upsert : ∀ (data db : List CompanyData) (t : String),
    t ∈ tickersOf db → t ∈ tickersOf (upsert_stock_data db data) := by
  intro data
  induction data with
  | nil => intro db t h; exact h
  | cons r l ih =>
    intro db t h
    unfold upsert_stock_data at ih ⊢
    rw [List.foldl_cons]
    exact ih _ t (mem_tickersOf_upsert_row db r t h)

/-- After a batch upsert every batch record's ticker is stored. -/
theorem batch_ticker_mem_upsert : ∀ (data db : List CompanyData) (r : CompanyData),
    r ∈ data → r.ticker ∈ tickersOf (upsert_stock_data db data) := by
  intro data
  induction data with
  | nil => intro db r hr; cases hr
  | cons a l ih =>
    intro db r hr
    unfold upsert_stock_data at ih ⊢
    rw [List.foldl_cons]
    rcases List.mem_cons.mp hr with rfl | hr
    · exact mem_tickersOf_upsert l _ r.ticker (rec_ticker_mem_upsert_row db r)
    · exact ih _ r hr

/-- When the record's ticker is already stored, the upsert statement is
the pure conflict update. -/
theorem upsert_row_eq_map (db : List CompanyData) (rec : CompanyData)
    (h : rec.ticker ∈ tickersOf db) :
    upsert_company_row db rec = db.map (applyCompanyUpdate rec) := by
  obtain ⟨x, hx, hxt⟩ := List.mem_map.mp h
  have hany : db.any (fun x => x.ticker == rec.ticker) = true :=
    List.any_eq_true.mpr ⟨x, hx, by rw [hxt]; exact beq_self_eq_true rec.ticker⟩
  unfold upsert_company_row
  rw [if_pos hany]

/-- When every batch ticker is already stored, the batch upsert is a map
of the composed conflict updates. -/
theorem upsert_eq_map_fold : ∀ (data db : List CompanyData),
    (∀ r ∈ data, r.ticker ∈ tickersOf db) →
    upsert_stock_data db data = db.map (companyFold data) := by
  intro data
  induction data with
  | nil =>
    intro db h
    have hmap : db.map (companyFold []) = db := by
      have h1 : ∀ a ∈ db, companyFold [] a = id a := fun a _ => rfl
      rw [List.map_congr_left h1, List.map_id]
    rw [hmap]
    rfl
  | cons a l ih =>
    intro db h
    unfold upsert_stock_data at ih ⊢
    rw [List.foldl_cons, upsert_row_eq_map db a (h a (List.mem_cons_self a l))]
    have hl : ∀ r ∈ l, r.ticker ∈ tickersOf (db.map (applyCompanyUpdate a)) := by
      intro r hr
      rw [tickersOf_map_update]
      exact h r (List.mem_cons_of_mem a hr)
    rw [ih (db.map (applyCompanyUpdate a)) hl, List.map_map]
    exact List.map_congr_left (fun x _ => rfl)

/-- The overwrite depends only on the untouched columns of its target. -/
theorem overwriteCompany_congr (x y rec : CompanyData)
    (ht : x.ticker = y.ticker) (hn : x.name = y.name) (hs : x.sector = y.sector) :
    overwriteCompany x rec = overwriteCompany y rec := by
  cases x
  cases y
  unfold overwriteCompany
  dsimp only at ht hn hs ⊢
  rw [ht, hn, hs]

/-- Overwriting a row that already agrees with the record on the
untouched columns yields the record itself. -/
theorem overwriteCompany_of_same (y rec : CompanyData)
    (ht : y.ticker = rec.ticker) (hn : y.name = rec.name) (hs : y.sector = rec.sector) :
    overwriteCompany y rec = rec := by
  cases y
  cases rec
  unfold overwriteCompany
  dsimp only at ht hn hs ⊢
  rw [ht, hn, hs]

/-- Every row of an upserted table is a fixed point of the batch's
composed conflict updates. -/
theorem companyFold_fixpoint : ∀ (data db : List CompanyData),
    ∀ q ∈ upsert_stock_data db data, companyFold data q = q := by
  intro data
  induction data using List.reverseRecOn with
  | nil => intro db q hq; rfl
  | append_singleton l r ih =>
    intro db q' hq'
    rw [companyFold_append_one]
    have hstep : upsert_stock_data db (l ++ [r]) =
        upsert_company_row (upsert_stock_data db l) r := by
      unfold upsert_stock_data
      rw [List.foldl_append]
      rfl
    rw [hstep] at hq'
    unfold upsert_company_row at hq'
    by_cases hconf : (upsert_stock_data db l).any (fun x => x.ticker == r.ticker) = true
    · rw [if_pos hconf] at hq'
      obtain ⟨x, hx, rfl⟩ := List.mem_map.mp hq'
      have hfx : companyFold l x = x := ih db x hx
      by_cases ht : (x.ticker == r.ticker) = true
      · have hq'eq : applyCompanyUpdate r x = overwriteCompany x r := by
          unfold applyCompanyUpdate
          rw [if_pos ht]
        rw [hq'eq]
        have hyt : (companyFold l (overwriteCompany x r)).ticker = x.ticker :=
          companyFold_ticker l (overwriteCompany x r)
        have hyn : (companyFold l (overwriteCompany x r)).name = x.name :=
          companyFold_name l (overwriteCompany x r)
        have hys : (companyFold l (overwriteCompany x r)).sector = x.sector :=
          companyFold_sector l (overwriteCompany x r)
        have happ : applyCompanyUpdate r (companyFold l (overwriteCompany x r)) =
            overwriteCompany (companyFold l (overwriteCompany x r)) r := by
          unfold applyCompanyUpdate
          rw [if_pos (by rw [hyt]; exact ht)]
        rw [happ]
        exact overwriteCompany_congr _ x r hyt hyn hys
      · have hq'eq : applyCompanyUpdate r x = x := by
          unfold applyCompanyUpdate
          rw [if_neg ht]
        rw [hq'eq, hfx]
        unfold applyCompanyUpdate
        rw [if_neg ht]
    · rw [if_neg hconf] at hq'
      rcases List.mem_append.mp hq' with hq1 | hq2
      · rw [ih db q' hq1]
        have hnt : ¬ (q'.ticker == r.ticker) = true := fun hcontra =>
          hconf (List.any_eq_true.mpr ⟨q', hq1, hcontra⟩)
        unfold applyCompanyUpdate
        rw [if_neg hnt]
      · have hq'r : q' = r := by simpa using hq2
        subst hq'r
        have hyt : (companyFold l q').ticker = q'.ticker := companyFold_ticker l q'
        have happ : applyCompanyUpdate q' (companyFold l q') =
            overwriteCompany (companyFold l q') q' := by
          unfold applyCompanyUpdate
          rw [if_pos (by rw [hyt]; exact beq_self_eq_true q'.ticker)]
        rw [happ]
        exact overwriteCompany_of_same _ q' hyt (companyFold_name l q') (companyFold_sector l q')

/-- C6: upserting the same Company batch twice leaves the table exactly
as one upsert did, for every prior table and every batch: the stored
market_cap, date, currency and website are those of the single upsert,
and name and sector keep their values from the first insert (the second
pass changes no column of any row). -/
theorem upsert_stock_data_idempotent (db data : List CompanyData) :
    upsert_stock_data (upsert_stock_data db data) data = upsert_stock_data db data := by
  have hall : ∀ r ∈ data, r.ticker ∈ tickersOf (upsert_stock_data db data) :=
    fun r hr => batch_ticker_mem_upsert data db r hr
  rw [upsert_eq_map_fold data (upsert_stock_data db data) hall]
  have hfix := companyFold_fixpoint data db
  calc (upsert_stock_data db data).map (companyFold data)
      = (upsert_stock_data db data).map id := List.map_congr_left (fun q hq => hfix q hq)
    _ = upsert_stock_data db data := List.map_id _
